import Mathlib

/-!
Shallow embedding of the mdbook build script (src/main.rs) of
rust-unofficial/patterns: manifest parsing (file_paths), the pre-render
relocator (before_rendering), the external-command driver (rendering) and
the post-render restorer (post_rendering).

Strings are modelled at the byte level (List Nat), because the Rust code
slices strings by byte index (path[..path.len()-1]) and such a slice
panics when the cut is not on a UTF-8 character boundary.  Paths are lists
of components (each a byte string); the filesystem is an association list
from paths to file contents.  A Rust panic is modelled as Except.error
carrying the filesystem state at the moment of the panic.
-/

namespace Mdbuild

/-- Bytes of the marker string "(./" searched for by file_paths. -/
def marker : List Nat := [40, 46, 47]

/-- Continuation bytes of UTF-8 are 0x80..0xBF; a byte index inside a string is
a character boundary exactly when the byte at it is not a continuation
byte, which is the condition Rust's string slicing checks. -/
def isContinuationByte (b : Nat) : Bool := decide (128 ≤ b) && decide (b < 192)

/-- Does pat occur at the head of l (byte-wise)? -/
def matchesAt : List Nat → List Nat → Bool
  | [], _ => true
  | _ :: _, [] => false
  | a :: ps, b :: ls => (a == b) && matchesAt ps ls

/-- Model of str::find for the marker pattern: byte index of the first
occurrence of marker in l. -/
def findMarker : List Nat → Option Nat
  | [] => none
  | b :: rest =>
    if matchesAt marker (b :: rest) then some 0
    else (findMarker rest).map (fun i => i + 1)

/-- Strip one leading 13 (a carriage return); used on the reversed
accumulator of a line, so it strips the byte just before a line feed,
exactly as Rust's str::lines strips a "\r\n" terminator. -/
def stripLeadCR : List Nat → List Nat
  | 13 :: rest => rest
  | l => l

/-- Accumulator pass for rustLines; acc holds the current line reversed. -/
def linesAux : List Nat → List Nat → List (List Nat)
  | [], [] => []
  | [], acc => [acc.reverse]
  | 10 :: rest, acc => (stripLeadCR acc).reverse :: linesAux rest []
  | b :: rest, acc => linesAux rest (b :: acc)

/-- Model of Rust's str::lines on the bytes of the string: split at each
line feed, dropping a carriage return that immediately precedes it; a
final line without terminator is kept, a trailing terminator produces no
empty final line. -/
def rustLines (s : List Nat) : List (List Nat) := linesAux s []

/-- One iteration of the loop body of file_paths on a single line:
none when the line has no marker; some (Except.error ()) when the slice
path[..path.len()-1] would panic (empty remainder after the marker, so
the index underflows, or a cut that is not a character boundary);
some (Except.ok p) with the extracted bytes otherwise. -/
def extractLine (line : List Nat) : Option (Except Unit (List Nat)) :=
  match findMarker line with
  | none => none
  | some i =>
    let path := line.drop (i + 3)
    if path.isEmpty then some (Except.error ())
    else if isContinuationByte (path.getLastD 0) then some (Except.error ())
    else some (Except.ok (path.take (path.length - 1)))

/-- The loop of file_paths over the lines of the manifest; the first
panicking line aborts the whole function. -/
def file_pathsAux : List (List Nat) → Except Unit (List (List Nat))
  | [] => Except.ok []
  | line :: rest =>
    match extractLine line with
    | none => file_pathsAux rest
    | some (Except.error e) => Except.error e
    | some (Except.ok p) =>
      match file_pathsAux rest with
      | Except.error e => Except.error e
      | Except.ok ps => Except.ok (p :: ps)

/-- Model of the inner fn file_paths of before_rendering, applied to the
bytes of the manifest: for each line containing "(./", take the bytes
after the marker and drop the final byte. -/
def file_paths (scontent : List Nat) : Except Unit (List (List Nat)) :=
  file_pathsAux (rustLines scontent)

/-- A filesystem path, as the list of its components (each a byte string). -/
abbrev Path := List (List Nat)

/-- The filesystem: an association list from paths to file contents.
Directories are not modelled; create_dir_all is recorded in the operation
trace and always succeeds. -/
abbrev FS := List (Path × List Nat)

/-- Content stored at path q, first binding wins. -/
def lookupFS : FS → Path → Option (List Nat)
  | [], _ => none
  | (p, c) :: rest, q => if p = q then some c else lookupFS rest q

/-- Remove every binding of path q. -/
def removeFS : FS → Path → FS
  | [], _ => []
  | (p, c) :: rest, q => if p = q then removeFS rest q else (p, c) :: removeFS rest q

/-- Model of std::fs::rename src dst: fails (None) when no file is at src;
otherwise the file moves to dst, silently replacing any file already
there, as the POSIX rename used by Rust does. -/
def renameFS (fs : FS) (src dst : Path) : Option FS :=
  match lookupFS fs src with
  | none => none
  | some c => some ((dst, c) :: removeFS (removeFS fs src) dst)

/-- Split a byte string at every 47 (the path separator "/"). -/
def splitSlash : List Nat → List (List Nat)
  | [] => [[]]
  | b :: rest =>
    if b = 47 then [] :: splitSlash rest
    else
      match splitSlash rest with
      | [] => [[b]]
      | c :: cs => (b :: c) :: cs

/-- Model of PathBuf::push: an absolute argument (leading "/") replaces the
whole path, a relative one appends its components. -/
def pushPath (base : Path) (rel : List Nat) : Path :=
  if rel.head? = some 47 then splitSlash rel else base ++ splitSlash rel

/-- Bytes of "src". -/
def srcStr : List Nat := [115, 114, 99]

/-- Bytes of "SUMMARY.md". -/
def summaryStr : List Nat := [83, 85, 77, 77, 65, 82, 89, 46, 109, 100]

/-- The path of the manifest: root pushed with "src" then "SUMMARY.md". -/
def summaryPath (root : Path) : Path := pushPath (pushPath root srcStr) summaryStr

/-- Original location of a manifest entry: root pushed with the entry. -/
def old_path (root : Path) (p : List Nat) : Path := pushPath root p

/-- Temporary location of a manifest entry: root pushed with "src" and then
with the entry, one directory level deeper than the original. -/
def new_path (root : Path) (p : List Nat) : Path := pushPath (pushPath root srcStr) p

/-- Model of PathBuf::parent: none on the empty path, otherwise the path
without its last component. -/
def parentPath : Path → Option Path
  | [] => none
  | p => some p.dropLast

/-- A filesystem operation performed by the relocator, in execution order. -/
inductive FsOp
  | mkdirAll (p : Path)
  | moveFile (src dst : Path)
deriving DecidableEq, Repr

/-- The loop of before_rendering over the parsed manifest entries: for each
entry, create the parent directory of the temporary location, rename the
file there, and record both locations; a failing rename panics with the
filesystem as it is at that moment. -/
def moveOutAux (root : Path) : List (List Nat) → FS → Except FS (FS × List Path × List Path × List FsOp)
  | [], fs => Except.ok (fs, [], [], [])
  | p :: rest, fs =>
    match parentPath (new_path root p) with
    | none => Except.error fs
    | some par =>
      match renameFS fs (old_path root p) (new_path root p) with
      | none => Except.error fs
      | some fs1 =>
        match moveOutAux root rest fs1 with
        | Except.error fsb => Except.error fsb
        | Except.ok (fs2, olds, news, tr) =>
          Except.ok (fs2, old_path root p :: olds, new_path root p :: news,
            FsOp.mkdirAll par :: FsOp.moveFile (old_path root p) (new_path root p) :: tr)

/-- Model of before_rendering: read src/SUMMARY.md under the root (panic if
absent), parse it with file_paths (a parser panic aborts with the
filesystem untouched), then relocate every entry in order. -/
def before_rendering (root : Path) (fs : FS) : Except FS (FS × List Path × List Path × List FsOp) :=
  match lookupFS fs (summaryPath root) with
  | none => Except.error fs
  | some content =>
    match file_paths content with
    | Except.error _ => Except.error fs
    | Except.ok ps => moveOutAux root ps fs

/-- The loop of post_rendering: for i in 0..olds.len() in increasing order,
rename news[i] back to olds[i], recording each performed move. -/
def moveBackAux : List Path → List Path → FS → Except FS (FS × List (Path × Path))
  | [], _, fs => Except.ok (fs, [])
  | _ :: _, [], fs => Except.ok (fs, [])
  | o :: os, n :: ns, fs =>
    match renameFS fs n o with
    | none => Except.error fs
    | some fs1 =>
      match moveBackAux os ns fs1 with
      | Except.error fsb => Except.error fsb
      | Except.ok (fs2, tr) => Except.ok (fs2, (n, o) :: tr)

/-- Model of post_rendering: assert the two lists have equal length (panic
otherwise), then move every file back in list order. -/
def post_rendering (olds news : List Path) (fs : FS) : Except FS (FS × List (Path × Path)) :=
  if olds.length = news.length then moveBackAux olds news fs else Except.error fs

/-- Outcome of one run of rendering: either a panic (assert failure or
expect on a failed filesystem call), or completion; both carry the final
filesystem. -/
inductive RunOutcome
  | panicked (fs : FS)
  | completed (fs : FS)
deriving DecidableEq, Repr

/-- Model of rendering: relocate, run the external command "mdbook build"
(modelled as a black box that only writes its own output directory, hence
leaves the modelled tree unchanged, and exits with code ecode), assert
the exit status is success, and only then restore. -/
def rendering (root : Path) (ecode : Nat) (fs : FS) : RunOutcome :=
  match before_rendering root fs with
  | Except.error fs1 => RunOutcome.panicked fs1
  | Except.ok (fs1, olds, news, _) =>
    if ecode = 0 then
      match post_rendering olds news fs1 with
      | Except.error fs2 => RunOutcome.panicked fs2
      | Except.ok (fs2, _) => RunOutcome.completed fs2
    else RunOutcome.panicked fs1

/-- The filesystem carried by an outcome. -/
def outcomeFS : RunOutcome → FS
  | RunOutcome.panicked fs => fs
  | RunOutcome.completed fs => fs

/-- Did the run panic? -/
def isPanicked : RunOutcome → Bool
  | RunOutcome.panicked _ => true
  | RunOutcome.completed _ => false

/-- The sequence of filesystem operations a fully successful relocation of
the given entries performs, in execution order: for each entry, first the
create_dir_all on the parent of the temporary location, then the rename
from the original to the temporary location. -/
def outTrace (root : Path) : List (List Nat) → List FsOp
  | [] => []
  | p :: rest =>
    FsOp.mkdirAll (new_path root p).dropLast ::
      FsOp.moveFile (old_path root p) (new_path root p) :: outTrace root rest

/-- Spec-side description of the extraction (section 4.1 of the spec): on a
line containing the marker, the substring immediately following the first
marker occurrence up to, but excluding, the last character of the line. -/
def specExtractLine (line : List Nat) : Option (List Nat) :=
  match findMarker line with
  | none => none
  | some i => some ((line.drop (i + 3)).dropLast)

/-- A line on which the extraction does not panic: either no marker, or a
nonempty remainder after the marker whose last byte is a character
boundary cut point (not a continuation byte). -/
def lineSafe (line : List Nat) : Bool :=
  match findMarker line with
  | none => true
  | some i =>
    let path := line.drop (i + 3)
    !path.isEmpty && !isContinuationByte (path.getLastD 0)

/-- Pairwise separation of manifest entries: distinct original locations,
and distinct temporary locations. -/
abbrev entriesSeparated (root : Path) (ps : List (List Nat)) : Prop :=
  List.Pairwise (fun a b => old_path root a ≠ old_path root b ∧ new_path root a ≠ new_path root b) ps

/- Concrete sample data used by witnesses and counterexamples. -/

/-- Bytes of "a.md". -/
def aStr : List Nat := [97, 46, 109, 100]

/-- Bytes of "b.md". -/
def bStr : List Nat := [98, 46, 109, 100]

/-- Bytes of "c.md". -/
def cStr : List Nat := [99, 46, 109, 100]

/-- Bytes of "intro.md". -/
def introStr : List Nat := [105, 110, 116, 114, 111, 46, 109, 100]

/-- Bytes of the manifest line "- [Intro](./intro.md)". -/
def introLine : List Nat :=
  [45, 32, 91, 73, 110, 116, 114, 111, 93, 40, 46, 47] ++ introStr ++ [41]

/-- Bytes of the manifest line "- [A](./a.md)" with its line feed. -/
def aLine : List Nat := [45, 32, 91, 65, 93, 40, 46, 47] ++ aStr ++ [41, 10]

/-- Bytes of the manifest line "- [B](./b.md)" with its line feed. -/
def bLine : List Nat := [45, 32, 91, 66, 93, 40, 46, 47] ++ bStr ++ [41, 10]

/-- Bytes of the manifest line "- [C](./c.md)" with its line feed. -/
def cLine : List Nat := [45, 32, 91, 67, 93, 40, 46, 47] ++ cStr ++ [41, 10]

/-- A one-entry layout: the manifest lists a.md, and a.md exists. -/
def fsOne : FS := [([srcStr, summaryStr], aLine), ([aStr], [65])]

/-- A layout whose manifest lists a.md twice; a.md exists, so every
manifest-referenced file exists at the start of the run. -/
def fsDup : FS := [([srcStr, summaryStr], aLine ++ aLine), ([aStr], [65])]

/-- A layout whose manifest lists a.md once, a.md exists, and a distinct
file also sits at the temporary location src/a.md. -/
def fsOcc : FS :=
  [([srcStr, summaryStr], aLine), ([aStr], [65]), ([srcStr, aStr], [66])]

/-- A layout whose manifest lists a.md, b.md, c.md but only a.md and c.md
exist on disk. -/
def fsMiss : FS :=
  [([srcStr, summaryStr], aLine ++ bLine ++ cLine), ([aStr], [65]), ([cStr], [67])]

/-- The state of fsOne after the relocation of a.md. -/
def fsOneMoved : FS := [([srcStr, aStr], [65]), ([srcStr, summaryStr], aLine)]

/-- The state of fsMiss after the relocation of a.md, where the run of the
relocator stops because b.md is missing. -/
def fsMissAfter : FS :=
  [([srcStr, aStr], [65]),
   ([srcStr, summaryStr], aLine ++ bLine ++ cLine), ([cStr], [67])]

/-- Bytes of the line "- [Bad](./", which contains the marker but panics
the extraction. -/
def badLine : List Nat := [45, 32, 91, 66, 97, 100, 93, 40, 46, 47]

/-- Bytes of the line "a(./b)(./c)", which contains the marker twice. -/
def twoMarkerLine : List Nat := [97, 40, 46, 47, 98, 41, 40, 46, 47, 99, 41]

/-- A relocated state holding files at the temporary locations src/a.md and
src/b.md, used to observe the order of the move-back loop. -/
def backFS : FS := [([srcStr, aStr], [0]), ([srcStr, bStr], [1])]

/- Basic algebra of the filesystem operations. -/

theorem lookupFS_removeFS_self (fs : FS) (p : Path) :
    lookupFS (removeFS fs p) p = none := by
  induction fs with
  | nil => rfl
  | cons hd tl ih =>
    obtain ⟨a, c⟩ := hd
    simp only [removeFS]
    by_cases hap : a = p
    · simpa [hap] using ih
    · simpa [lookupFS, hap] using ih

theorem lookupFS_removeFS_ne (fs : FS) (p q : Path) (h : q ≠ p) :
    lookupFS (removeFS fs p) q = lookupFS fs q := by
  induction fs with
  | nil => rfl
  | cons hd tl ih =>
    obtain ⟨a, c⟩ := hd
    simp only [removeFS, lookupFS]
    by_cases hap : a = p
    · subst hap
      rw [if_pos rfl, ih, if_neg (fun hh => h hh.symm)]
    · rw [if_neg hap]
      simp only [lookupFS]
      by_cases haq : a = q
      · rw [if_pos haq, if_pos haq]
      · rw [if_neg haq, if_neg haq, ih]

theorem renameFS_eq_none (fs : FS) (a b : Path) :
    renameFS fs a b = none ↔ lookupFS fs a = none := by
  unfold renameFS
  cases lookupFS fs a <;> simp

theorem renameFS_isSome (fs : FS) (a b : Path) (h : (lookupFS fs a).isSome = true) :
    ∃ fs1, renameFS fs a b = some fs1 := by
  unfold renameFS
  cases hx : lookupFS fs a with
  | none => rw [hx] at h; simp at h
  | some c => exact ⟨_, rfl⟩

theorem lookupFS_renameFS (fs fs1 : FS) (a b q : Path)
    (h : renameFS fs a b = some fs1) :
    lookupFS fs1 q =
      if q = b then lookupFS fs a else if q = a then none else lookupFS fs q := by
  unfold renameFS at h
  cases hx : lookupFS fs a with
  | none => rw [hx] at h; simp at h
  | some c =>
    rw [hx] at h
    have hfs1 : fs1 = (b, c) :: removeFS (removeFS fs a) b := by
      simpa using h.symm
    subst hfs1
    simp only [lookupFS]
    by_cases hqb : q = b
    · subst hqb
      simp [hx]
    · rw [if_neg (fun hh => hqb hh.symm), if_neg hqb,
        lookupFS_removeFS_ne (removeFS fs a) b q hqb]
      by_cases hqa : q = a
      · subst hqa
        rw [lookupFS_removeFS_self, if_pos rfl]
      · rw [lookupFS_removeFS_ne fs a q hqa, if_neg hqa]

theorem splitSlash_ne_nil (l : List Nat) : splitSlash l ≠ [] := by
  cases l with
  | nil => simp [splitSlash]
  | cons b rest =>
    simp only [splitSlash]
    by_cases hb : b = 47
    · simp [hb]
    · rw [if_neg hb]
      cases splitSlash rest <;> simp

theorem pushPath_ne_nil (base : Path) (rel : List Nat) : pushPath base rel ≠ [] := by
  unfold pushPath
  by_cases hb : rel.head? = some 47
  · rw [if_pos hb]
    exact splitSlash_ne_nil rel
  · rw [if_neg hb]
    intro h
    exact splitSlash_ne_nil rel (List.append_eq_nil.mp h).2

theorem parentPath_new_path (root : Path) (p : List Nat) :
    parentPath (new_path root p) = some (new_path root p).dropLast := by
  unfold parentPath
  have h := pushPath_ne_nil (pushPath root srcStr) p
  match hx : new_path root p with
  | [] => exact absurd hx h
  | a :: rest => rfl

theorem moveOutAux_shape (root : Path) (ps : List (List Nat)) :
    ∀ (fs fs' : FS) (olds news : List Path) (tr : List FsOp),
    moveOutAux root ps fs = Except.ok (fs', olds, news, tr) →
    olds = ps.map (old_path root) ∧ news = ps.map (new_path root) ∧ tr = outTrace root ps := by
  induction ps with
  | nil =>
    intro fs fs' olds news tr h
    simp only [moveOutAux, Except.ok.injEq, Prod.mk.injEq] at h
    obtain ⟨-, h2, h3, h4⟩ := h
    exact ⟨h2.symm, h3.symm, h4.symm⟩
  | cons p rest ih =>
    intro fs fs' olds news tr h
    simp only [moveOutAux, parentPath_new_path] at h
    cases hr : renameFS fs (old_path root p) (new_path root p) with
    | none => rw [hr] at h; simp at h
    | some fs1 =>
      rw [hr] at h
      simp only at h
      cases hm : moveOutAux root rest fs1 with
      | error e => rw [hm] at h; simp at h
      | ok r =>
        obtain ⟨fs2, o2, n2, t2⟩ := r
        rw [hm] at h
        simp only [Except.ok.injEq, Prod.mk.injEq] at h
        obtain ⟨-, h2, h3, h4⟩ := h
        obtain ⟨s2, s3, s4⟩ := ih fs1 fs2 o2 n2 t2 hm
        subst s2 s3 s4
        exact ⟨h2.symm, h3.symm, h4.symm⟩

theorem moveOutAux_ok (root : Path) (ps : List (List Nat)) :
    ∀ fs : FS,
    (∀ p ∈ ps, (lookupFS fs (old_path root p)).isSome = true) →
    (∀ p ∈ ps, lookupFS fs (new_path root p) = none) →
    entriesSeparated root ps →
    ∃ fs' : FS,
      moveOutAux root ps fs
        = Except.ok (fs', ps.map (old_path root), ps.map (new_path root), outTrace root ps)
      ∧ (∀ q : Path, (∀ p ∈ ps, q ≠ old_path root p ∧ q ≠ new_path root p) →
          lookupFS fs' q = lookupFS fs q)
      ∧ (∀ p ∈ ps, lookupFS fs' (old_path root p) = none
          ∧ lookupFS fs' (new_path root p) = lookupFS fs (old_path root p)) := by
  induction ps with
  | nil =>
    intro fs _ _ _
    exact ⟨fs, rfl, fun q _ => rfl, fun p hp => absurd hp (List.not_mem_nil p)⟩
  | cons p rest ih =>
    intro fs hex hfresh hsep
    have hexp : (lookupFS fs (old_path root p)).isSome = true :=
      hex p (List.mem_cons_self p rest)
    have hfreshp : lookupFS fs (new_path root p) = none :=
      hfresh p (List.mem_cons_self p rest)
    obtain ⟨fs1, hr⟩ := renameFS_isSome fs (old_path root p) (new_path root p) hexp
    have hlook1 : ∀ q, lookupFS fs1 q =
        if q = new_path root p then lookupFS fs (old_path root p)
        else if q = old_path root p then none else lookupFS fs q :=
      fun q => lookupFS_renameFS fs fs1 _ _ q hr
    obtain ⟨hsep_head, hsep_tail⟩ := List.pairwise_cons.mp hsep
    have hne_on : ∀ x, (lookupFS fs (old_path root x)).isSome = true →
        old_path root x ≠ new_path root p := by
      intro x hx hc
      rw [hc, hfreshp] at hx
      simp at hx
    have hne_no : ∀ x, lookupFS fs (new_path root x) = none →
        new_path root x ≠ old_path root p := by
      intro x hx hc
      rw [hc] at hx
      rw [hx] at hexp
      simp at hexp
    have hex1 : ∀ q ∈ rest, (lookupFS fs1 (old_path root q)).isSome = true := by
      intro q hq
      rw [hlook1, if_neg (hne_on q (hex q (List.mem_cons_of_mem p hq))),
        if_neg (Ne.symm (hsep_head q hq).1)]
      exact hex q (List.mem_cons_of_mem p hq)
    have hfresh1 : ∀ q ∈ rest, lookupFS fs1 (new_path root q) = none := by
      intro q hq
      rw [hlook1, if_neg (Ne.symm (hsep_head q hq).2),
        if_neg (hne_no q (hfresh q (List.mem_cons_of_mem p hq)))]
      exact hfresh q (List.mem_cons_of_mem p hq)
    obtain ⟨fs2, hm, hframe, htrans⟩ := ih fs1 hex1 hfresh1 hsep_tail
    have holdp_ne_newy : ∀ y ∈ rest, old_path root p ≠ new_path root y := by
      intro y hy hc
      rw [hc, hfresh y (List.mem_cons_of_mem p hy)] at hexp
      simp at hexp
    have hnewp_ne_oldy : ∀ y ∈ rest, new_path root p ≠ old_path root y := by
      intro y hy hc
      have := hex y (List.mem_cons_of_mem p hy)
      rw [← hc, hfreshp] at this
      simp at this
    refine ⟨fs2, ?_, ?_, ?_⟩
    · simp only [moveOutAux, parentPath_new_path, hr, hm, List.map_cons, outTrace]
    · intro q hq
      have hqp := hq p (List.mem_cons_self p rest)
      have h1 : lookupFS fs2 q = lookupFS fs1 q :=
        hframe q (fun x hx => hq x (List.mem_cons_of_mem p hx))
      rw [h1, hlook1, if_neg hqp.2, if_neg hqp.1]
    · intro x hx
      rcases List.mem_cons.mp hx with hxp | hxr
      · subst hxp
        constructor
        · have h1 : lookupFS fs2 (old_path root x) = lookupFS fs1 (old_path root x) :=
            hframe _ (fun y hy => ⟨(hsep_head y hy).1, holdp_ne_newy y hy⟩)
          rw [h1, hlook1, if_neg (hne_on x hexp), if_pos rfl]
        · have h1 : lookupFS fs2 (new_path root x) = lookupFS fs1 (new_path root x) :=
            hframe _ (fun y hy => ⟨hnewp_ne_oldy y hy, (hsep_head y hy).2⟩)
          rw [h1, hlook1, if_pos rfl]
      · obtain ⟨t1, t2⟩ := htrans x hxr
        refine ⟨t1, ?_⟩
        rw [t2, hlook1, if_neg (hne_on x (hex x (List.mem_cons_of_mem p hxr))),
          if_neg (Ne.symm (hsep_head x hxr).1)]

theorem moveBackAux_shape (os : List Path) :
    ∀ (ns : List Path) (fs fs' : FS) (tr : List (Path × Path)),
    moveBackAux os ns fs = Except.ok (fs', tr) → tr = ns.zip os := by
  induction os with
  | nil =>
    intro ns fs fs' tr h
    simp only [moveBackAux, Except.ok.injEq, Prod.mk.injEq] at h
    rw [← h.2, List.zip_nil_right]
  | cons o os ih =>
    intro ns fs fs' tr h
    cases ns with
    | nil =>
      simp only [moveBackAux, Except.ok.injEq, Prod.mk.injEq] at h
      rw [← h.2, List.zip_nil_left]
    | cons n ns =>
      simp only [moveBackAux] at h
      cases hr : renameFS fs n o with
      | none => rw [hr] at h; simp at h
      | some fs1 =>
        rw [hr] at h
        simp only at h
        cases hm : moveBackAux os ns fs1 with
        | error e => rw [hm] at h; simp at h
        | ok r =>
          obtain ⟨fs2, t2⟩ := r
          rw [hm] at h
          simp only [Except.ok.injEq, Prod.mk.injEq] at h
          rw [← h.2, List.zip_cons_cons, ih ns fs1 fs2 t2 hm]

theorem moveBackAux_ok (os : List Path) :
    ∀ (ns : List Path) (fs : FS),
    (∀ pr ∈ ns.zip os, (lookupFS fs pr.1).isSome = true ∧ lookupFS fs pr.2 = none) →
    List.Pairwise (fun a b => a.1 ≠ b.1 ∧ a.2 ≠ b.2) (ns.zip os) →
    ∃ fs' : FS,
      moveBackAux os ns fs = Except.ok (fs', ns.zip os)
      ∧ (∀ q : Path, (∀ pr ∈ ns.zip os, q ≠ pr.1 ∧ q ≠ pr.2) →
          lookupFS fs' q = lookupFS fs q)
      ∧ (∀ pr ∈ ns.zip os, lookupFS fs' pr.1 = none
          ∧ lookupFS fs' pr.2 = lookupFS fs pr.1) := by
  induction os with
  | nil =>
    intro ns fs _ _
    refine ⟨fs, ?_, fun q _ => rfl, ?_⟩
    · simp [moveBackAux, List.zip_nil_right]
    · rw [List.zip_nil_right]
      exact fun pr hpr => absurd hpr (List.not_mem_nil pr)
  | cons o os ih =>
    intro ns fs hocc hsep
    cases ns with
    | nil =>
      refine ⟨fs, ?_, fun q _ => rfl, ?_⟩
      · simp [moveBackAux, List.zip_nil_left]
      · rw [List.zip_nil_left]
        exact fun pr hpr => absurd hpr (List.not_mem_nil pr)
    | cons n ns =>
      rw [List.zip_cons_cons] at hocc hsep ⊢
      obtain ⟨hn, ho⟩ := hocc (n, o) (List.mem_cons_self (n, o) (ns.zip os))
      obtain ⟨fs1, hr⟩ := renameFS_isSome fs n o hn
      have hlook1 : ∀ q, lookupFS fs1 q =
          if q = o then lookupFS fs n else if q = n then none else lookupFS fs q :=
        fun q => lookupFS_renameFS fs fs1 n o q hr
      obtain ⟨hsep_head, hsep_tail⟩ := List.pairwise_cons.mp hsep
      have hsrc_ne_o : ∀ pr : Path × Path, (lookupFS fs pr.1).isSome = true → pr.1 ≠ o := by
        intro pr hx hc
        rw [hc, ho] at hx
        simp at hx
      have hdst_ne_n : ∀ pr : Path × Path, lookupFS fs pr.2 = none → pr.2 ≠ n := by
        intro pr hx hc
        rw [hc] at hx
        rw [hx] at hn
        simp at hn
      have hocc1 : ∀ pr ∈ ns.zip os, (lookupFS fs1 pr.1).isSome = true
          ∧ lookupFS fs1 pr.2 = none := by
        intro pr hpr
        obtain ⟨h1, h2⟩ := hocc pr (List.mem_cons_of_mem _ hpr)
        constructor
        · rw [hlook1, if_neg (hsrc_ne_o pr h1), if_neg (Ne.symm (hsep_head pr hpr).1)]
          exact h1
        · rw [hlook1, if_neg (Ne.symm (hsep_head pr hpr).2), if_neg (hdst_ne_n pr h2)]
          exact h2
      obtain ⟨fs2, hm, hframe, htrans⟩ := ih ns fs1 hocc1 hsep_tail
      have ho_ne : ∀ pr ∈ ns.zip os, o ≠ pr.1 ∧ o ≠ pr.2 := by
        intro pr hpr
        obtain ⟨h1, h2⟩ := hocc pr (List.mem_cons_of_mem _ hpr)
        exact ⟨Ne.symm (hsrc_ne_o pr h1), (hsep_head pr hpr).2⟩
      have hn_ne : ∀ pr ∈ ns.zip os, n ≠ pr.1 ∧ n ≠ pr.2 := by
        intro pr hpr
        obtain ⟨h1, h2⟩ := hocc pr (List.mem_cons_of_mem _ hpr)
        exact ⟨(hsep_head pr hpr).1, Ne.symm (hdst_ne_n pr h2)⟩
      refine ⟨fs2, ?_, ?_, ?_⟩
      · simp only [moveBackAux, hr, hm]
      · intro q hq
        have hqh := hq (n, o) (List.mem_cons_self (n, o) (ns.zip os))
        have h1 : lookupFS fs2 q = lookupFS fs1 q :=
          hframe q (fun pr hpr => hq pr (List.mem_cons_of_mem _ hpr))
        rw [h1, hlook1, if_neg hqh.2, if_neg hqh.1]
      · intro pr hpr
        rcases List.mem_cons.mp hpr with hph | hpt
        · subst hph
          constructor
          · have h1 : lookupFS fs2 n = lookupFS fs1 n := hframe n hn_ne
            rw [h1, hlook1, if_neg (hsrc_ne_o (n, o) hn), if_pos rfl]
          · have h1 : lookupFS fs2 o = lookupFS fs1 o := hframe o ho_ne
            rw [h1, hlook1, if_pos rfl]
        · obtain ⟨t1, t2⟩ := htrans pr hpt
          refine ⟨t1, ?_⟩
          obtain ⟨h1, h2⟩ := hocc pr (List.mem_cons_of_mem _ hpt)
          rw [t2, hlook1, if_neg (hsrc_ne_o pr h1), if_neg (Ne.symm (hsep_head pr hpt).1)]

theorem moveOutAux_append_error (root : Path) (ps1 : List (List Nat))
    (p : List Nat) (ps2 : List (List Nat)) :
    ∀ (fs fs1 : FS) (o n : List Path) (t : List FsOp),
    moveOutAux root ps1 fs = Except.ok (fs1, o, n, t) →
    lookupFS fs1 (old_path root p) = none →
    moveOutAux root (ps1 ++ p :: ps2) fs = Except.error fs1 := by
  induction ps1 with
  | nil =>
    intro fs fs1 o n t h hmiss
    simp only [moveOutAux, Except.ok.injEq, Prod.mk.injEq] at h
    obtain ⟨h1, -, -, -⟩ := h
    rw [← h1] at hmiss ⊢
    have hre : renameFS fs (old_path root p) (new_path root p) = none :=
      (renameFS_eq_none fs (old_path root p) (new_path root p)).mpr hmiss
    simp only [List.nil_append, moveOutAux, parentPath_new_path, hre]
  | cons a rest ih =>
    intro fs fs1 o n t h hmiss
    simp only [moveOutAux, parentPath_new_path] at h
    cases hr : renameFS fs (old_path root a) (new_path root a) with
    | none => rw [hr] at h; simp at h
    | some fsa =>
      rw [hr] at h
      simp only at h
      cases hm : moveOutAux root rest fsa with
      | error e => rw [hm] at h; simp at h
      | ok r =>
        obtain ⟨fs2, o2, n2, t2⟩ := r
        rw [hm] at h
        simp only [Except.ok.injEq, Prod.mk.injEq] at h
        obtain ⟨h1, -, -, -⟩ := h
        rw [← h1] at hmiss ⊢
        simp only [List.cons_append, moveOutAux, parentPath_new_path, hr,
          List.append_eq, ih fsa fs2 o2 n2 t2 hm hmiss]

/- Parser lemmas. -/

theorem extractLine_of_no_marker (l : List Nat) (h : findMarker l = none) :
    extractLine l = none := by
  simp [extractLine, h]

theorem extractLine_safe (l : List Nat) (h : lineSafe l = true) :
    extractLine l = Option.map Except.ok (specExtractLine l) := by
  unfold lineSafe at h
  cases hf : findMarker l with
  | none => simp [extractLine, specExtractLine, hf]
  | some i =>
    rw [hf] at h
    simp only [Bool.and_eq_true, Bool.not_eq_eq_eq_not, Bool.not_true] at h
    obtain ⟨h1, h2⟩ := h
    simp only [extractLine, specExtractLine, hf, h1, h2, Bool.false_eq_true,
      if_false]
    rw [List.dropLast_eq_take]
    rfl

theorem file_pathsAux_safe (lines : List (List Nat))
    (h : ∀ l ∈ lines, lineSafe l = true) :
    file_pathsAux lines = Except.ok (lines.filterMap specExtractLine) := by
  induction lines with
  | nil => rfl
  | cons l rest ih =>
    have hl := extractLine_safe l (h l (List.mem_cons_self l rest))
    have hrest := ih (fun x hx => h x (List.mem_cons_of_mem l hx))
    cases hf : specExtractLine l with
    | none =>
      rw [hf] at hl
      have hl2 : extractLine l = none := hl
      simp only [file_pathsAux, hl2, List.filterMap_cons, hf, hrest]
    | some p =>
      rw [hf] at hl
      have hl2 : extractLine l = some (Except.ok p) := hl
      simp only [file_pathsAux, hl2, List.filterMap_cons, hf, hrest]

theorem length_filterMap_specExtract (lines : List (List Nat)) :
    (lines.filterMap specExtractLine).length
      = lines.countP (fun l => (findMarker l).isSome) := by
  induction lines with
  | nil => rfl
  | cons l rest ih =>
    cases hf : findMarker l with
    | none => simp [List.filterMap_cons, specExtractLine, hf, List.countP_cons, ih]
    | some i => simp [List.filterMap_cons, specExtractLine, hf, List.countP_cons, ih]

theorem findMarker_first (l : List Nat) :
    ∀ i : Nat, findMarker l = some i →
    matchesAt marker (l.drop i) = true
    ∧ ∀ j : Nat, j < i → matchesAt marker (l.drop j) = false := by
  induction l with
  | nil => intro i h; simp [findMarker] at h
  | cons b rest ih =>
    intro i h
    simp only [findMarker] at h
    by_cases hm : matchesAt marker (b :: rest) = true
    · rw [if_pos hm, Option.some.injEq] at h
      subst h
      exact ⟨hm, fun j hj => absurd hj (Nat.not_lt_zero j)⟩
    · rw [if_neg hm] at h
      cases hrest : findMarker rest with
      | none => rw [hrest] at h; simp at h
      | some i0 =>
        rw [hrest] at h
        simp only [Option.map_some', Option.some.injEq] at h
        subst h
        obtain ⟨g1, g2⟩ := ih i0 hrest
        refine ⟨g1, ?_⟩
        intro j hj
        cases j with
        | zero =>
          simp only [List.drop_zero]
          cases hmm : matchesAt marker (b :: rest) with
          | false => rfl
          | true => exact absurd hmm hm
        | succ j0 =>
          simp only [List.drop_succ_cons]
          exact g2 j0 (Nat.lt_of_succ_lt_succ hj)

/- Helper lemmas shared by the claim theorems. -/

theorem before_rendering_parse (root : Path) (fs : FS) (content : List Nat)
    (ps : List (List Nat))
    (hsum : lookupFS fs (summaryPath root) = some content)
    (hps : file_paths content = Except.ok ps) :
    before_rendering root fs = moveOutAux root ps fs := by
  simp only [before_rendering, hsum, hps]

theorem filterMap_specExtract_of_no_marker (lines : List (List Nat))
    (h : ∀ l ∈ lines, findMarker l = none) :
    lines.filterMap specExtractLine = [] := by
  induction lines with
  | nil => rfl
  | cons l rest ih =>
    simp only [List.filterMap_cons, specExtractLine, h l (List.mem_cons_self l rest)]
    exact ih (fun x hx => h x (List.mem_cons_of_mem l hx))

/- Claim theorems. -/

/-- C3: for each parsed relative path, in parser order, the relocator
computes the original location as the root joined with the path and the
temporary location as the root joined with "src" joined with the same
path (one directory level deeper), and for each entry it first issues the
creation of the missing intermediate directories of the temporary
location (create_dir_all on its parent) and then the rename from the
original to the temporary location, as recorded by the operation trace
outTrace. -/
theorem c3_relocator_paths (root : Path) (fs fs1 : FS) (content : List Nat)
    (ps : List (List Nat)) (olds news : List Path) (tr : List FsOp)
    (hsum : lookupFS fs (summaryPath root) = some content)
    (hps : file_paths content = Except.ok ps)
    (hrun : before_rendering root fs = Except.ok (fs1, olds, news, tr)) :
    olds = ps.map (old_path root)
    ∧ news = ps.map (new_path root)
    ∧ tr = outTrace root ps := by
  rw [before_rendering_parse root fs content ps hsum hps] at hrun
  exact moveOutAux_shape root ps fs fs1 olds news tr hrun

/-- Witness for C3 on the one-entry layout fsOne. -/
theorem c3_relocator_witness :
    lookupFS fsOne (summaryPath []) = some aLine
    ∧ file_paths aLine = Except.ok [aStr]
    ∧ before_rendering [] fsOne = Except.ok (fsOneMoved, [[aStr]], [[srcStr, aStr]],
        [FsOp.mkdirAll [srcStr], FsOp.moveFile [aStr] [srcStr, aStr]])
    ∧ ([[aStr]] = [aStr].map (old_path [])
       ∧ [[srcStr, aStr]] = [aStr].map (new_path [])
       ∧ [FsOp.mkdirAll [srcStr], FsOp.moveFile [aStr] [srcStr, aStr]]
           = outTrace [] [aStr]) :=
  ⟨rfl, rfl, rfl, c3_relocator_paths [] fsOne fsOneMoved aLine [aStr]
    [[aStr]] [[srcStr, aStr]] [FsOp.mkdirAll [srcStr], FsOp.moveFile [aStr] [srcStr, aStr]]
    rfl rfl rfl⟩

/-- C4: when the external build command exits with a nonzero code, the run
panics at the assert and ends in exactly the post-relocation state fs1:
post_rendering is never reached, no retry and no cleanup happens, and the
relocated files stay at their temporary locations. -/
theorem c4_nonzero_exit_aborts (root : Path) (ecode : Nat) (fs fs1 : FS)
    (olds news : List Path) (tr : List FsOp)
    (hrun : before_rendering root fs = Except.ok (fs1, olds, news, tr))
    (hcode : ecode ≠ 0) :
    rendering root ecode fs = RunOutcome.panicked fs1 := by
  simp only [rendering, hrun, if_neg hcode]

/-- Witness for C4: exit code 1 on the one-entry layout leaves a.md at its
temporary location src/a.md. -/
theorem c4_nonzero_exit_witness :
    before_rendering [] fsOne = Except.ok (fsOneMoved, [[aStr]], [[srcStr, aStr]],
      [FsOp.mkdirAll [srcStr], FsOp.moveFile [aStr] [srcStr, aStr]])
    ∧ (1 : Nat) ≠ 0
    ∧ rendering [] 1 fsOne = RunOutcome.panicked fsOneMoved
    ∧ lookupFS fsOneMoved [srcStr, aStr] = some [65]
    ∧ lookupFS fsOneMoved [aStr] = none :=
  ⟨rfl, by decide,
    c4_nonzero_exit_aborts [] 1 fsOne fsOneMoved [[aStr]] [[srcStr, aStr]]
      [FsOp.mkdirAll [srcStr], FsOp.moveFile [aStr] [srcStr, aStr]] rfl (by decide),
    rfl, rfl⟩

/-- C5: whenever the relocator returns, the original-path list and the
temporary-path list have identical length and are index-aligned: both are
images of the same parsed entry list, so position i of each comes from
the same relative path. -/
theorem c5_equal_length_aligned (root : Path) (fs fs1 : FS) (content : List Nat)
    (ps : List (List Nat)) (olds news : List Path) (tr : List FsOp)
    (hsum : lookupFS fs (summaryPath root) = some content)
    (hps : file_paths content = Except.ok ps)
    (hrun : before_rendering root fs = Except.ok (fs1, olds, news, tr)) :
    olds.length = news.length
    ∧ ∀ i : Nat, ∀ hi : i < ps.length,
        olds.get? i = some (old_path root (ps.get ⟨i, hi⟩))
        ∧ news.get? i = some (new_path root (ps.get ⟨i, hi⟩)) := by
  rw [before_rendering_parse root fs content ps hsum hps] at hrun
  obtain ⟨h1, h2, -⟩ := moveOutAux_shape root ps fs fs1 olds news tr hrun
  subst h1
  subst h2
  refine ⟨by simp, ?_⟩
  intro i hi
  rw [List.get?_map, List.get?_map, List.get?_eq_get hi]
  exact ⟨rfl, rfl⟩

/-- Witness for C5 on the one-entry layout fsOne. -/
theorem c5_equal_length_witness :
    lookupFS fsOne (summaryPath []) = some aLine
    ∧ file_paths aLine = Except.ok [aStr]
    ∧ before_rendering [] fsOne = Except.ok (fsOneMoved, [[aStr]], [[srcStr, aStr]],
        [FsOp.mkdirAll [srcStr], FsOp.moveFile [aStr] [srcStr, aStr]])
    ∧ ([[aStr]] : List Path).length = ([[srcStr, aStr]] : List Path).length :=
  ⟨rfl, rfl, rfl,
    (c5_equal_length_aligned [] fsOne fsOneMoved aLine [aStr]
      [[aStr]] [[srcStr, aStr]] [FsOp.mkdirAll [srcStr], FsOp.moveFile [aStr] [srcStr, aStr]]
      rfl rfl rfl).1⟩

/-- C7 counterexample: the post-render restorer moves files back in
forward list order, not in reverse.  With two relocation pairs, the
recorded sequence of performed renames starts with the FIRST pair
(src/a.md back to a.md) and ends with the second; the two pairs are
distinct, so the last relocated file is not the first one moved back. -/
theorem c7_counterexample :
    post_rendering [[aStr], [bStr]] [[srcStr, aStr], [srcStr, bStr]] backFS
      = Except.ok ([([bStr], [1]), ([aStr], [0])],
          [([srcStr, aStr], [aStr]), ([srcStr, bStr], [bStr])])
    ∧ (([srcStr, aStr], [aStr]) : Path × Path) ≠ ([srcStr, bStr], [bStr]) :=
  ⟨rfl, by decide⟩

/-- C7 (amended): the restorer consumes the relocation pairs in the same
forward order in which the move-out step produced them: the trace of a
successful post_rendering is news zipped with olds in list order, so the
i-th relocated file is the i-th moved back. -/
theorem c7_moveback_order (olds news : List Path) (fs fs2 : FS)
    (tr : List (Path × Path))
    (hrun : post_rendering olds news fs = Except.ok (fs2, tr)) :
    tr = news.zip olds := by
  unfold post_rendering at hrun
  by_cases hlen : olds.length = news.length
  · rw [if_pos hlen] at hrun
    exact moveBackAux_shape olds news fs fs2 tr hrun
  · rw [if_neg hlen] at hrun
    simp at hrun

/-- Witness for C7 (amended) on the two-pair state backFS. -/
theorem c7_moveback_order_witness :
    post_rendering [[aStr], [bStr]] [[srcStr, aStr], [srcStr, bStr]] backFS
      = Except.ok (([([bStr], [1]), ([aStr], [0])] : FS),
          [([srcStr, aStr], [aStr]), ([srcStr, bStr], [bStr])])
    ∧ ([([srcStr, aStr], [aStr]), ([srcStr, bStr], [bStr])] : List (Path × Path))
        = List.zip [[srcStr, aStr], [srcStr, bStr]] [[aStr], [bStr]] :=
  ⟨rfl, c7_moveback_order [[aStr], [bStr]] [[srcStr, aStr], [srcStr, bStr]]
    backFS [([bStr], [1]), ([aStr], [0])]
    [([srcStr, aStr], [aStr]), ([srcStr, bStr], [bStr])] rfl⟩

/-- C8: a manifest with no line containing the marker parses to the empty
entry list, and the relocator returns immediately with both path lists
empty, an empty operation trace and the filesystem unchanged. -/
theorem c8_empty_manifest (root : Path) (fs : FS) (content : List Nat)
    (hsum : lookupFS fs (summaryPath root) = some content)
    (hnomark : ∀ l ∈ rustLines content, findMarker l = none) :
    file_paths content = Except.ok []
    ∧ before_rendering root fs = Except.ok (fs, [], [], []) := by
  have hsafe : ∀ l ∈ rustLines content, lineSafe l = true := by
    intro l hl
    unfold lineSafe
    rw [hnomark l hl]
  have hfp : file_paths content = Except.ok [] := by
    unfold file_paths
    rw [file_pathsAux_safe _ hsafe, filterMap_specExtract_of_no_marker _ hnomark]
  refine ⟨hfp, ?_⟩
  rw [before_rendering_parse root fs content [] hsum hfp]
  rfl

/-- Witness for C8: a manifest consisting of the single line "hi". -/
theorem c8_empty_manifest_witness :
    lookupFS [([srcStr, summaryStr], [104, 105])] (summaryPath []) = some [104, 105]
    ∧ (∀ l ∈ rustLines [104, 105], findMarker l = none)
    ∧ file_paths [104, 105] = Except.ok []
    ∧ before_rendering [] [([srcStr, summaryStr], [104, 105])]
        = Except.ok ([([srcStr, summaryStr], [104, 105])], [], [], []) :=
  ⟨rfl, by decide,
    (c8_empty_manifest [] [([srcStr, summaryStr], [104, 105])] [104, 105] rfl (by decide)).1,
    (c8_empty_manifest [] [([srcStr, summaryStr], [104, 105])] [104, 105] rfl (by decide)).2⟩

/-- C2 counterexample: the line "- [Bad](./" contains the marker (at byte
index 7), yet the parser does not return a path for it: the slice panics,
so file_paths aborts with an error instead of returning any list. -/
theorem c2_counterexample :
    findMarker badLine = some 7
    ∧ rustLines badLine = [badLine]
    ∧ file_paths badLine = Except.error () :=
  ⟨rfl, rfl, rfl⟩

/-- C2 (amended): for every manifest whose marker lines each have a
nonempty remainder after the marker ending at a character boundary (in
particular any line whose last character is ASCII), the parser returns
exactly one path per marker line, in manifest line order with duplicates
preserved: the result is the in-order filterMap of the spec-side
extraction, whose length is the number of marker lines, and each entry is
the substring starting right after the marker and ending just before the
line's last character. -/
theorem c2_parser_extraction (content : List Nat)
    (hsafe : ∀ l ∈ rustLines content, lineSafe l = true) :
    file_paths content = Except.ok ((rustLines content).filterMap specExtractLine)
    ∧ ((rustLines content).filterMap specExtractLine).length
        = (rustLines content).countP (fun l => (findMarker l).isSome) :=
  ⟨file_pathsAux_safe (rustLines content) hsafe,
    length_filterMap_specExtract (rustLines content)⟩

/-- Witness for C2 (amended): the manifest line "- [Intro](./intro.md)"
yields exactly the path "intro.md". -/
theorem c2_parser_witness :
    (∀ l ∈ rustLines introLine, lineSafe l = true)
    ∧ file_paths introLine
        = Except.ok ((rustLines introLine).filterMap specExtractLine)
    ∧ (rustLines introLine).filterMap specExtractLine = [introStr]
    ∧ file_paths introLine = Except.ok [introStr] :=
  ⟨by decide, (c2_parser_extraction introLine (by decide)).1, rfl, rfl⟩

/-- C6: if the relocator has successfully processed a prefix ps1 of the
manifest entries, reaching state fs1, and the next entry p has no file at
its original location, then the whole relocation aborts with exactly the
state fs1, whatever the remaining entries ps2 are: the earlier entries
stay relocated and the later ones are never touched. -/
theorem c6_first_failure_abort (root : Path) (fs fs1 : FS) (content : List Nat)
    (ps1 : List (List Nat)) (p : List Nat) (ps2 : List (List Nat))
    (o n : List Path) (t : List FsOp)
    (hsum : lookupFS fs (summaryPath root) = some content)
    (hps : file_paths content = Except.ok (ps1 ++ p :: ps2))
    (hpre : moveOutAux root ps1 fs = Except.ok (fs1, o, n, t))
    (hmiss : lookupFS fs1 (old_path root p) = none) :
    before_rendering root fs = Except.error fs1 := by
  rw [before_rendering_parse root fs content (ps1 ++ p :: ps2) hsum hps]
  exact moveOutAux_append_error root ps1 p ps2 fs fs1 o n t hpre hmiss

/-- Witness for C6 on fsMiss: a.md is relocated, b.md is missing, the run
aborts in state fsMissAfter and c.md is still at its original place. -/
theorem c6_first_failure_witness :
    lookupFS fsMiss (summaryPath []) = some (aLine ++ bLine ++ cLine)
    ∧ file_paths (aLine ++ bLine ++ cLine) = Except.ok ([aStr] ++ bStr :: [cStr])
    ∧ moveOutAux [] [aStr] fsMiss = Except.ok (fsMissAfter, [[aStr]], [[srcStr, aStr]],
        [FsOp.mkdirAll [srcStr], FsOp.moveFile [aStr] [srcStr, aStr]])
    ∧ lookupFS fsMissAfter (old_path [] bStr) = none
    ∧ before_rendering [] fsMiss = Except.error fsMissAfter
    ∧ lookupFS fsMissAfter [srcStr, aStr] = some [65]
    ∧ lookupFS fsMissAfter [cStr] = some [67] :=
  ⟨rfl, rfl, rfl, rfl,
    c6_first_failure_abort [] fsMiss fsMissAfter (aLine ++ bLine ++ cLine)
      [aStr] bStr [cStr] [[aStr]] [[srcStr, aStr]]
      [FsOp.mkdirAll [srcStr], FsOp.moveFile [aStr] [srcStr, aStr]] rfl rfl rfl rfl,
    rfl, rfl⟩

/-- C9: the parser is not total on marker lines.  On the line consisting
of exactly the marker "(./" the remainder after the marker is empty and
the slice panics; on the line "(./" followed by the two-byte character
0xC3 0xA9 the cut falls inside the final character and the slice panics.
In both cases extractLine reports the panic and file_paths aborts with an
error instead of returning a path. -/
theorem c9_parser_panics :
    findMarker [40, 46, 47] = some 0
    ∧ extractLine [40, 46, 47] = some (Except.error ())
    ∧ file_paths [40, 46, 47] = Except.error ()
    ∧ findMarker [40, 46, 47, 195, 169] = some 0
    ∧ extractLine [40, 46, 47, 195, 169] = some (Except.error ())
    ∧ file_paths [40, 46, 47, 195, 169] = Except.error () :=
  ⟨rfl, rfl, rfl, rfl, rfl, rfl⟩

/-- C10: each manifest line yields at most one extracted path (extractLine
returns an Option), taken from the first occurrence of the marker: when
findMarker returns i, the marker matches at i and at no earlier byte
index, and any path the line yields is the whole remainder after that
first marker minus the final byte, so the text of any later marker
occurrence is contained inside that single extracted substring rather
than extracted separately. -/
theorem c10_first_marker_only (line : List Nat) (i : Nat)
    (h : findMarker line = some i) :
    matchesAt marker (line.drop i) = true
    ∧ (∀ j : Nat, j < i → matchesAt marker (line.drop j) = false)
    ∧ ∀ p : List Nat, extractLine line = some (Except.ok p) →
        p = (line.drop (i + 3)).dropLast := by
  obtain ⟨g1, g2⟩ := findMarker_first line i h
  refine ⟨g1, g2, ?_⟩
  intro p hp
  simp only [extractLine, h] at hp
  by_cases he : (line.drop (i + 3)).isEmpty = true
  · rw [if_pos he] at hp
    exact absurd hp (by simp)
  · rw [if_neg he] at hp
    by_cases hc : isContinuationByte ((line.drop (i + 3)).getLastD 0) = true
    · rw [if_pos hc] at hp
      exact absurd hp (by simp)
    · rw [if_neg hc] at hp
      simp only [Option.some.injEq, Except.ok.injEq] at hp
      rw [← hp, List.dropLast_eq_take]

/-- Witness for C10 on the line "a(./b)(./c)": the marker is found at
index 1, not at the later occurrence, the extracted path is "b)(./c",
and the second marker's text sits inside it at offset 2. -/
theorem c10_first_marker_witness :
    findMarker twoMarkerLine = some 1
    ∧ (matchesAt marker (twoMarkerLine.drop 1) = true
       ∧ (∀ j : Nat, j < 1 → matchesAt marker (twoMarkerLine.drop j) = false)
       ∧ ∀ p : List Nat, extractLine twoMarkerLine = some (Except.ok p) →
           p = (twoMarkerLine.drop (1 + 3)).dropLast)
    ∧ extractLine twoMarkerLine = some (Except.ok [98, 41, 40, 46, 47, 99])
    ∧ matchesAt marker (List.drop 2 [98, 41, 40, 46, 47, 99]) = true :=
  ⟨rfl, c10_first_marker_only twoMarkerLine 1 rfl, rfl, rfl⟩

/-- C1 counterexample, two scenarios in which every manifest-referenced
file exists at the start of the run and yet the relocate/restore pair
does not leave the tree identical.  Duplicates: fsDup lists a.md twice
and a.md exists; the run panics during move-out and ends with a.md stuck
at its temporary location, not restored.  Occupied temporary location:
fsOcc lists a.md once, a.md exists, and a distinct file sits at src/a.md;
the run completes, but the file that was at src/a.md has been destroyed,
so the final tree differs from the initial one. -/
theorem c1_counterexample :
    (file_paths (aLine ++ aLine) = Except.ok [aStr, aStr]
     ∧ lookupFS fsDup (old_path [] aStr) = some [65]
     ∧ isPanicked (rendering [] 0 fsDup) = true
     ∧ lookupFS (outcomeFS (rendering [] 0 fsDup)) (old_path [] aStr) = none
     ∧ lookupFS (outcomeFS (rendering [] 0 fsDup)) (new_path [] aStr) = some [65])
    ∧ (file_paths aLine = Except.ok [aStr]
       ∧ lookupFS fsOcc (old_path [] aStr) = some [65]
       ∧ isPanicked (rendering [] 0 fsOcc) = false
       ∧ lookupFS fsOcc (new_path [] aStr) = some [66]
       ∧ lookupFS (outcomeFS (rendering [] 0 fsOcc)) (new_path [] aStr) = none) :=
  ⟨⟨rfl, rfl, rfl, rfl, rfl⟩, ⟨rfl, rfl, rfl, rfl, rfl⟩⟩

/-- C1 (amended): for any file layout in which every manifest-referenced
file exists, the referenced entries are pairwise separated (distinct
original locations and distinct temporary locations) and no file
initially occupies any temporary location, the full success-path run -
move-out, external render with exit code 0, move-back - completes and
restores every file to its exact original absolute path: the final
filesystem agrees with the initial one at every path. -/
theorem c1_relocate_restore_roundtrip (root : Path) (fs : FS) (content : List Nat)
    (ps : List (List Nat))
    (hsum : lookupFS fs (summaryPath root) = some content)
    (hps : file_paths content = Except.ok ps)
    (hex : ∀ p ∈ ps, (lookupFS fs (old_path root p)).isSome = true)
    (hfresh : ∀ p ∈ ps, lookupFS fs (new_path root p) = none)
    (hsep : entriesSeparated root ps) :
    ∃ fs2 : FS, rendering root 0 fs = RunOutcome.completed fs2
      ∧ ∀ q : Path, lookupFS fs2 q = lookupFS fs q := by
  obtain ⟨fs1, hout, hframe1, htrans1⟩ := moveOutAux_ok root ps fs hex hfresh hsep
  have hzip : (ps.map (new_path root)).zip (ps.map (old_path root))
      = ps.map (fun p => (new_path root p, old_path root p)) :=
    List.zip_map' (new_path root) (old_path root) ps
  have hocc2 : ∀ pr ∈ (ps.map (new_path root)).zip (ps.map (old_path root)),
      (lookupFS fs1 pr.1).isSome = true ∧ lookupFS fs1 pr.2 = none := by
    rw [hzip]
    intro pr hpr
    obtain ⟨p, hp, hpr2⟩ := List.mem_map.mp hpr
    obtain ⟨t1, t2⟩ := htrans1 p hp
    subst hpr2
    refine ⟨?_, t1⟩
    simpa [t2] using hex p hp
  have hpair : List.Pairwise (fun a b => a.1 ≠ b.1 ∧ a.2 ≠ b.2)
      ((ps.map (new_path root)).zip (ps.map (old_path root))) := by
    rw [hzip]
    exact List.pairwise_map.mpr (hsep.imp (fun h => ⟨h.2, h.1⟩))
  obtain ⟨fs2, hback, hframe2, htrans2⟩ :=
    moveBackAux_ok (ps.map (old_path root)) (ps.map (new_path root)) fs1 hocc2 hpair
  have hpost : post_rendering (ps.map (old_path root)) (ps.map (new_path root)) fs1
      = Except.ok (fs2, (ps.map (new_path root)).zip (ps.map (old_path root))) := by
    unfold post_rendering
    rw [if_pos (by simp), hback]
  have hbr : before_rendering root fs
      = Except.ok (fs1, ps.map (old_path root), ps.map (new_path root), outTrace root ps) := by
    rw [before_rendering_parse root fs content ps hsum hps]
    exact hout
  refine ⟨fs2, ?_, ?_⟩
  · simp only [rendering, hbr, hpost]
    exact if_pos trivial
  · intro q
    by_cases hq1 : ∃ p, p ∈ ps ∧ q = old_path root p
    · obtain ⟨p, hp, hq⟩ := hq1
      subst hq
      have hmem : (new_path root p, old_path root p)
          ∈ (ps.map (new_path root)).zip (ps.map (old_path root)) := by
        rw [hzip]
        exact List.mem_map.mpr ⟨p, hp, rfl⟩
      obtain ⟨-, b2⟩ := htrans2 _ hmem
      rw [b2, (htrans1 p hp).2]
    · by_cases hq2 : ∃ p, p ∈ ps ∧ q = new_path root p
      · obtain ⟨p, hp, hq⟩ := hq2
        subst hq
        have hmem : (new_path root p, old_path root p)
            ∈ (ps.map (new_path root)).zip (ps.map (old_path root)) := by
          rw [hzip]
          exact List.mem_map.mpr ⟨p, hp, rfl⟩
        obtain ⟨b1, -⟩ := htrans2 _ hmem
        rw [b1, hfresh p hp]
      · have h2 : lookupFS fs2 q = lookupFS fs1 q := by
          apply hframe2
          rw [hzip]
          intro pr hpr
          obtain ⟨p, hp, hpr2⟩ := List.mem_map.mp hpr
          subst hpr2
          exact ⟨fun hc => hq2 ⟨p, hp, hc⟩, fun hc => hq1 ⟨p, hp, hc⟩⟩
        have h1 : lookupFS fs1 q = lookupFS fs q := by
          apply hframe1
          intro p hp
          exact ⟨fun hc => hq1 ⟨p, hp, hc⟩, fun hc => hq2 ⟨p, hp, hc⟩⟩
        rw [h2, h1]

/-- Witness for C1 (amended) on the one-entry layout fsOne. -/
theorem c1_roundtrip_witness :
    (lookupFS fsOne (summaryPath []) = some aLine
     ∧ file_paths aLine = Except.ok [aStr]
     ∧ (∀ p ∈ [aStr], (lookupFS fsOne (old_path [] p)).isSome = true)
     ∧ (∀ p ∈ [aStr], lookupFS fsOne (new_path [] p) = none)
     ∧ entriesSeparated [] [aStr])
    ∧ ∃ fs2 : FS, rendering [] 0 fsOne = RunOutcome.completed fs2
        ∧ ∀ q : Path, lookupFS fs2 q = lookupFS fsOne q :=
  ⟨⟨rfl, rfl, by decide, by decide, by decide⟩,
    c1_relocate_restore_roundtrip [] fsOne aLine [aStr] rfl rfl
      (by decide) (by decide) (by decide)⟩

end Mdbuild
